import Mathlib

set_option autoImplicit false

namespace Pysph

/-- Text is modelled as a list of characters. -/
abbrev S : Type := List Char

/-- Turn a string literal into its character-list representation. -/
def lit (s : String) : S := s.data

/-- First-match association lookup, modelling Python dictionary indexing. -/
def alookup {β : Type} (k : S) : List (S × β) → Option β
  | [] => none
  | (k', v) :: t => if k' = k then some v else alookup k t

/-- Lookup in a `defaultdict(list)`: a missing key reads as the empty list. -/
def lookupList {β : Type} (k : S) (l : List (S × List β)) : List β :=
  (alookup k l).getD []

/-- The update `d[k].append(b)` on a `defaultdict(list)`: append to the entry of `k`,
creating the entry at the end when the key is missing (dictionaries are
modelled with insertion-ordered keys). -/
def updateAppend {β : Type} (l : List (S × List β)) (k : S) (b : β) : List (S × List β) :=
  match l with
  | [] => [(k, [b])]
  | (k', v) :: t => if k' = k then (k', v ++ [b]) :: t else (k', v) :: updateAppend t k b

/-- Accumulate a list of key/value pairs into a multimap. -/
def buildMulti {β : Type} (ps : List (S × β)) : List (S × List β) :=
  ps.foldl (fun a p => updateAppend a p.1 p.2) []

/-- All values associated with key `k` in a list of pairs, in order. -/
def assocVals {β : Type} (k : S) (ps : List (S × β)) : List β :=
  (ps.filter (fun p => decide (p.1 = k))).map (fun p => p.2)

/-- The keys of an association list, in order. -/
def keysOf {β : Type} (l : List (S × β)) : List S := l.map (fun p => p.1)

/-- Insertion-ordered deduplication, modelling a Python dict or set used as
an ordered "already seen" collection. -/
def dedupFirst {α : Type} [DecidableEq α] (xs : List α) : List α :=
  xs.foldl (fun acc x => if x ∈ acc then acc else acc ++ [x]) []

/-- Python `'sep'.join(xs)`. -/
def joinSep (sep : S) : List S → S
  | [] => []
  | [x] => x
  | x :: y :: ys => x ++ sep ++ joinSep sep (y :: ys)

/-- Python `repr` of a list of strings, as produced by `%s` formatting. -/
def listRepr (xs : List S) : S :=
  lit "[" ++ joinSep (lit ", ") (xs.map (fun x => lit "\x27" ++ x ++ lit "\x27")) ++ lit "]"

/-- The `Variable` descriptor of cgsph.py: a typed named value with an optional default,
already rendered to text. -/
structure Variable where
  type : S
  name : S
  default : Option S
deriving DecidableEq, Repr

/-- The `declare` string computed in `Variable.__init__`. -/
def Variable.declare (v : Variable) : S :=
  match v.default with
  | some d => lit "cdef " ++ v.type ++ lit " " ++ v.name ++ lit " = " ++ d
  | none => lit "cdef " ++ v.type ++ lit " " ++ v.name

/-- The initialization string computed in `Variable.__init__` (the source
attribute's exact name is unavailable here). -/
def Variable.initText (v : Variable) : S :=
  match v.default with
  | some d => v.name ++ lit " = " ++ d
  | none => []

/-- The bundle of named optional fragments returned by a `cython_code()`
query; a `none` field models an absent dictionary key. -/
structure CythonCode where
  variables_ : Option (List Variable) := none
  temporaries : Option (List Variable) := none
  arrays : Option (List S) := none
  loop : Option S := none
  post : Option S := none
  helper : Option S := none
  setup : Option S := none
deriving DecidableEq, Repr

/-- An `Equation`: `name` models `__class__.__name__`, `code` the value of its
(pure) `cython_code()` query.  `sources` is an `Option` so that the Python
value `None` is representable alongside a list. -/
structure Equation where
  name : S
  dest : S
  sources : Option (List S)
  code : CythonCode
deriving DecidableEq, Repr

structure Group where
  equations : List Equation
deriving DecidableEq, Repr

/-- An element of the equation list handed to the generator. -/
inductive EqOrGroup where
  | e (eq : Equation)
  | g (grp : Group)
deriving DecidableEq, Repr

structure Kernel where
  name : S
  code : CythonCode
deriving DecidableEq, Repr

structure Locator where
  name : S
  code : CythonCode
deriving DecidableEq, Repr

structure ParticleArray where
  name : S
  properties : List S
deriving DecidableEq, Repr

/-- The exceptions cgsph.py can raise during generation. -/
inductive Err where
  | valueError (msg : S)
  | clash (msg : S)
  | typeError (msg : S)
  | attributeError (msg : S)
deriving DecidableEq, Repr

instance {ε α : Type} [DecidableEq ε] [DecidableEq α] : DecidableEq (Except ε α) := fun x y =>
  match x, y with
  | .ok a, .ok b =>
    if h : a = b then isTrue (by rw [h]) else isFalse (by simp [h])
  | .error a, .error b =>
    if h : a = b then isTrue (by rw [h]) else isFalse (by simp [h])
  | .ok _, .error _ => isFalse (fun hh => Except.noConfusion hh)
  | .error _, .ok _ => isFalse (fun hh => Except.noConfusion hh)

def noneIterMsg : S := lit "\x27NoneType\x27 object is not iterable"

def isGroup : EqOrGroup → Bool
  | .g _ => true
  | .e _ => false

/-- Model of `check_equations` of cgsph.py. -/
def check_equations (equations : List EqOrGroup) : Except Err (List Group) :=
  let only_groups := equations.filter isGroup
  if 0 < only_groups.length ∧ only_groups.length ≠ equations.length then
    .error (.valueError (lit "All elements must be Groups if you use groups."))
  else if only_groups.length = 0 then
    .ok [⟨equations.filterMap (fun x => match x with | .e q => some q | .g _ => none)⟩]
  else
    .ok (equations.filterMap (fun x => match x with | .g gr => some gr | .e _ => none))

/-- One step of the inner loop of `SPHEval._make_group`: add `equation` under
every name of its source list.  Iterating a `None` source list raises a
`TypeError`. -/
def srcStep (sources : List (S × List Equation)) (equation : Equation) :
    Except Err (List (S × List Equation)) :=
  match equation.sources with
  | none => .error (.typeError noneIterMsg)
  | some l => .ok (l.foldl (fun a src => updateAppend a src equation) sources)

/-- The inner loop of `SPHEval._make_group`: one `sources` defaultdict built
by scanning every equation of the group and every name in its source list. -/
def srcMapOf (equations : List Equation) : Except Err (List (S × List Equation)) :=
  equations.foldlM srcStep []

/-- Model of `SPHEval._make_group`: destination list in first-occurrence order, each
destination mapped to a sources map freshly built from all equations of the
group. -/
def makeGroup (group : Group) : Except Err (List (S × List (S × List Equation))) := do
  let dest_list := dedupFirst (group.equations.map (fun e => e.dest))
  dest_list.mapM (fun dest => do
    let sources ← srcMapOf group.equations
    pure (dest, sources))

/-- Message `Variable %s defined in %s.`. -/
def varClashMsg (name : S) (eqs : List S) : S :=
  lit "Variable " ++ name ++ lit " defined in " ++ listRepr eqs ++ lit "."

/-- Message `Temporary %s in equation %s also defined as variable in %s`. -/
def tempVarMsg (name : S) (eqs veqs : List S) : S :=
  lit "Temporary " ++ name ++ lit " in equation " ++ listRepr eqs ++
    lit " also defined as variable in " ++ listRepr veqs

/-- Message `Temporary declarations for %s in %s differ`. -/
def tempDeclMsg (name : S) (eqs : List S) : S :=
  lit "Temporary declarations for " ++ name ++ lit " in " ++ listRepr eqs ++ lit " differ"

/-- The accumulators of the collection loop of `SPHEval._check_and_get_variables`. -/
structure Collected where
  vars : List Variable
  var_names : List (S × List S)
  temps : List Variable
  tmp_names : List (S × List S)
  tmp_declare : List (S × List S)
deriving DecidableEq, Repr

/-- One iteration of the collection loop of `SPHEval._check_and_get_variables`:
`code.get('variables', [])` and `code.get('temporaries', [])` read absent keys
as empty. -/
def collectStep (acc : Collected) (equation : Equation) : Collected :=
  let v := equation.code.variables_.getD []
  let t := equation.code.temporaries.getD []
  { vars := acc.vars ++ v
    var_names := v.foldl (fun m x => updateAppend m x.name equation.name) acc.var_names
    temps := acc.temps ++ t
    tmp_names := t.foldl (fun m x => updateAppend m x.name equation.name) acc.tmp_names
    tmp_declare := t.foldl (fun m x => updateAppend m x.name x.declare) acc.tmp_declare }

/-- The collection loop of `SPHEval._check_and_get_variables`. -/
def collect (equations : List Equation) : Collected :=
  equations.foldl collectStep ⟨[], [], [], [], []⟩

/-- Flattening the equation groups, as the repeated
`for g: equations.extend(g.equations)` loops do. -/
def allEquations (groups : List Group) : List Equation :=
  groups.foldl (fun a g => a ++ g.equations) []

/-- The test `all(map(lambda v: v == declares[0], declares))`. -/
def allSameDecl (ds : List S) : Bool :=
  ds.all (fun d => decide (d = ds.headD []))

/-- Model of `SPHEval._check_and_get_variables`: collect variables and temporaries and
enforce the three naming invariants, raising `VariableNameClashError`. -/
def checkAndGetVariables (groups : List Group) : Except Err (List Variable × List Variable) :=
  let c := collect (allEquations groups)
  match c.var_names.find? (fun p => decide (1 < p.2.length)) with
  | some p => .error (.clash (varClashMsg p.1 p.2))
  | none =>
    match c.tmp_names.find? (fun p => (alookup p.1 c.var_names).isSome) with
    | some p => .error (.clash (tempVarMsg p.1 p.2 (lookupList p.1 c.var_names)))
    | none =>
      match c.tmp_names.find?
          (fun p => decide (1 < p.2.length) && !allSameDecl (lookupList p.1 c.tmp_declare)) with
      | some p => .error (.clash (tempDeclMsg p.1 p.2))
      | none => .ok (c.vars, c.temps)

/-- The insertion `d[x] = None` on a dict used as an ordered "seen" set. -/
def insertKey (l : List S) (x : S) : List S :=
  if x ∈ l then l else l ++ [x]

/-- Model of `SPHEval._get_variable_declarations`: the declaration dictionary
keyed by `declare` text deduplicates all variable declarations followed by
all temporary declarations, and its keys are joined with newlines.  The
source uses a plain Python 2 dict, whose key iteration order is
implementation-defined (hash order); the model must pick a concrete order
and uses insertion order, so only which distinct texts appear — never their
order — may be relied on. -/
def getVariableDeclarations (vars tmps : List Variable) : S :=
  joinSep (lit "\n") (dedupFirst (vars.map Variable.declare ++ tmps.map Variable.declare))

/-- Model of `SPHEval._get_array_declarations`: `code.get('arrays')` has no default, so
an equation without an `arrays` key makes the loop iterate `None`. -/
def getArrayDeclarations (groups : List Group) : Except Err S := do
  let keys ← (allEquations groups).foldlM
    (fun decl eq =>
      match eq.code.arrays with
      | none => .error (.typeError noneIterMsg)
      | some arrs =>
        .ok (arrs.foldl (fun d array => insertKey d (lit "cdef double* " ++ array)) decl))
    ([] : List S)
  pure (joinSep (lit "\n") keys)

/-- Model of `SPHEval._get_initialization`: `code.get('variables')` and
`code.get('temporaries')` have no default, so an equation omitting either key
makes the loops iterate `None`. -/
def getInitialization (equations : List Equation) : Except Err S := do
  let keys ← equations.foldlM
    (fun init equation =>
      match equation.code.variables_, equation.code.temporaries with
      | some vars, some tmps =>
        .ok ((vars ++ tmps).foldl (fun d var => insertKey d var.initText) init)
      | _, _ => .error (.typeError noneIterMsg))
    ([] : List S)
  pure (joinSep (lit "\n") keys)

/-- Python `str.replace(tok, repl)` for a non-empty `tok`: replace each
leftmost occurrence and continue after it. -/
def replTok (tok repl : S) : S → S
  | [] => []
  | c :: rest =>
    if h : tok ≠ [] ∧ tok.isPrefixOf (c :: rest) then
      repl ++ replTok tok repl ((c :: rest).drop tok.length)
    else
      c :: replTok tok repl rest
termination_by s => s.length
decreasing_by
  · simp only [List.length_drop, List.length_cons]
    have htok : 0 < tok.length := List.length_pos.mpr h.1
    omega
  · simp

def noneReplaceMsg : S := lit "\x27NoneType\x27 object has no attribute \x27replace\x27"

/-- Model of `SPHEval._get_equation_loop`: substitute `KERNEL` and then `GRADIENT` by
the names derived from the kernel's class name. -/
def getEquationLoop (kernel : Kernel) (equation : Equation) : Except Err S :=
  match equation.code.loop with
  | none => .error (.attributeError noneReplaceMsg)
  | some code =>
    let kname := kernel.name ++ lit "Kernel"
    let gradient := kernel.name ++ lit "Gradient"
    .ok (replTok (lit "GRADIENT") gradient (replTok (lit "KERNEL") kname code))

/-- Model of `SPHEval._get_dest_array_setup`. -/
def getDestArraySetup (dest_name : S) (sources : List (S × List Equation)) : Except Err S := do
  let eqs := dedupFirst (sources.foldl (fun a p => a ++ p.2) [])
  let arrs ← eqs.foldlM
    (fun acc e =>
      match e.code.arrays with
      | none => .error (.typeError noneIterMsg)
      | some l => .ok (acc ++ l.filter (fun arr => (lit "d_").isPrefixOf arr)))
    ([] : List S)
  let names := dedupFirst ([lit "d_x", lit "d_y", lit "d_z", lit "d_h"] ++ arrs)
  let lines := [lit "NP_DEST = self." ++ dest_name ++ lit ".size()"] ++
    names.map (fun n => n ++ lit " = self." ++ dest_name ++ lit "." ++ n.drop 2 ++
      lit ".get_data_ptr()")
  pure (joinSep (lit "\n") lines)

/-- Model of `SPHEval._get_src_array_setup`. -/
def getSrcArraySetup (src_name : S) (eqs : List Equation) : Except Err S := do
  let arrs ← eqs.foldlM
    (fun acc e =>
      match e.code.arrays with
      | none => .error (.typeError noneIterMsg)
      | some l => .ok (acc ++ l.filter (fun arr => (lit "s_").isPrefixOf arr)))
    ([] : List S)
  let names := dedupFirst ([lit "s_x", lit "s_y", lit "s_z", lit "s_h"] ++ arrs)
  pure (joinSep (lit "\n")
    (names.map (fun n => n ++ lit " = self." ++ src_name ++ lit "." ++ n.drop 2 ++
      lit ".get_data_ptr()")))

/-- The indentation-tracked text buffer `SourceCode`. -/
structure SourceCode where
  code : List (S × Nat)
  level : Nat
deriving DecidableEq, Repr

def SourceCode.empty : SourceCode := ⟨[], 0⟩

def SourceCode.indent (s : SourceCode) : SourceCode := { s with level := s.level + 1 }

def SourceCode.dedent (s : SourceCode) : SourceCode := { s with level := s.level - 1 }

def SourceCode.add (s : SourceCode) (c : S) : SourceCode :=
  { s with code := s.code ++ [(c, s.level)] }

/-- Split on every newline, keeping all pieces. -/
def splitOnNl : S → List S
  | [] => [[]]
  | c :: rest =>
    if c = '\n' then [] :: splitOnNl rest
    else
      match splitOnNl rest with
      | [] => [[c]]
      | p :: ps => (c :: p) :: ps

/-- Python `str.splitlines` for newline-delimited text: no entry is produced
for a trailing newline, and the empty string splits to no lines. -/
def splitLines (s : S) : List S :=
  if s = [] then []
  else
    let ps := splitOnNl s
    if ps.getLast? = some [] then ps.dropLast else ps

/-- Model of `SourceCode._indented_code`. -/
def indentedCode (code : S) (level : Nat) : S :=
  joinSep (lit "\n") ((splitLines code).map (fun line => List.replicate (level * 4) ' ' ++ line))

/-- Model of `SourceCode.get`. -/
def SourceCode.get (s : SourceCode) : S :=
  joinSep (lit "\n") (s.code.map (fun p => indentedCode p.1 p.2))

/-- Model of `get_code(obj, key)`: a documentation line plus the fragment when the key
is present, nothing otherwise. -/
def getCodeFrag (objName : S) (field : Option S) : List S :=
  match field with
  | some c => [lit "# From " ++ objName, c]
  | none => []

def reservedProps : List S := [lit "tag", lit "group", lit "local", lit "pid"]

def wrapperHeader : S :=
  lit "from pysph.base.particle_array cimport ParticleArray\nfrom pysph.base.particle_array import ParticleArray\n\ncdef class ParticleArrayWrapper:\n    cdef public ParticleArray array\n    cdef public LongArray tag, group\n    cdef public IntArray local, pid\n    cdef public DoubleArray "

def wrapperFooter : S :=
  lit "\n\n    def __init__(self, pa):\n        self.array = pa\n        props = set(pa.properties.keys())\n        props = props.union([\x27tag\x27, \x27group\x27, \x27local\x27, \x27pid\x27])\n        for prop in props:\n            setattr(self, prop, pa.get_carray(prop))\n\n    cpdef long size(self):\n        return self.array.get_number_of_particles()\n\n\n"

/-- Model of `define_particle_array_wrapper`: union of all property names minus the
reserved bookkeeping names (the Python set is modelled insertion-ordered). -/
def defineParticleArrayWrapper (particle_arrays : List ParticleArray) : S :=
  let props := (dedupFirst (particle_arrays.foldl (fun a pa => a ++ pa.properties) [])).filter
    (fun p => decide (p ∉ reservedProps))
  let array_code := joinSep (lit ", ") props
  wrapperHeader ++ array_code ++ wrapperFooter

/-- The static configuration handed to `SPHEval`. -/
structure Config where
  particle_arrays : List ParticleArray
  equation_groups : List Group
  locator : Locator
  kernel : Kernel
deriving DecidableEq, Repr

/-- Model of `SPHEval._get_helpers`. -/
def getHelpers (cfg : Config) : S :=
  let helpers :=
    [lit "from pysph.base.carray cimport DoubleArray, LongArray, IntArray, UIntArray",
     lit "from pysph.base.carray import DoubleArray, LongArray, IntArray, UIntArray",
     ([] : S)] ++
    getCodeFrag cfg.kernel.name cfg.kernel.code.helper ++
    (allEquations cfg.equation_groups).foldl
      (fun a eq => a ++ getCodeFrag eq.name eq.code.helper) [] ++
    getCodeFrag cfg.locator.name cfg.locator.code.helper ++
    [defineParticleArrayWrapper cfg.particle_arrays]
  joinSep (lit "\n") helpers

/-- Decimal `%d` formatting of a group index. -/
def natStr (n : Nat) : S := (toString n).data

/-- A `dict.get` of a fragment that the emitter immediately uses as a string;
the Python code fails on `None` once the fragment is rendered. -/
def reqS (o : Option S) : Except Err S :=
  match o with
  | some s => .ok s
  | none => .error (.attributeError noneReplaceMsg)

def bodyHeader (pa_names : S) : S :=
  lit "cdef class SPHCalc:\n\n    cdef public ParticleArrayWrapper " ++ pa_names ++
  lit "\n\n    def __init__(self, *particle_arrays):\n        for pa in particle_arrays:\n            name = pa.name\n            setattr(self, name, ParticleArrayWrapper(pa))\n\n    cpdef void compute(self):\n        cdef public long s_idx, d_idx, NP_SRC, NP_DEST\n        cdef public LongArray nbrs\n\n"

def neighborLoopText : S :=
  lit "locator.get_neighbors(d_idx, nbrs)\nfor nbr_idx in range(len(nbrs)):\n    s_idx = nbrs[nbr_idx]\n"

/-- The per-source emission step of `SPHEval._get_body`. -/
def emitSource (cfg : Config) (src : SourceCode) (sp : S × List Equation) :
    Except Err SourceCode := do
  let src := src.add (lit "# Source " ++ sp.1 ++ lit ".\n")
  let sas ← getSrcArraySetup sp.1 sp.2
  let src := src.add sas
  let setup ← reqS cfg.locator.code.setup
  let src := src.add setup
  let src := src.add (lit "for d_idx in range(NP_DEST):\n")
  let src := src.indent
  let init ← getInitialization sp.2
  let src := src.add init
  let src := src.add neighborLoopText
  let src := src.indent
  let src ← sp.2.foldlM
    (fun src equation => do
      let src := src.add (lit "# Equation " ++ equation.name)
      let el ← getEquationLoop cfg.kernel equation
      pure (src.add el))
    src
  let src := src.dedent
  let src ← sp.2.foldlM
    (fun src equation => do
      let post ← reqS equation.code.post
      pure (src.add post))
    src
  let src := src.dedent
  pure (src.add (lit "# Source " ++ sp.1 ++ lit " done.\n"))

/-- The per-destination emission step of `SPHEval._get_body`. -/
def emitDest (cfg : Config) (src : SourceCode) (dp : S × List (S × List Equation)) :
    Except Err SourceCode := do
  let src := src.add (lit "# Destination " ++ dp.1 ++ lit ".\n")
  let das ← getDestArraySetup dp.1 dp.2
  let src := src.add das
  let src ← dp.2.foldlM (emitSource cfg) src
  pure (src.add (lit "# Destination " ++ dp.1 ++ lit " done.\n"))

/-- Model of `SPHEval._get_body`. -/
def getBody (cfg : Config) (groups : List (List (S × List (S × List Equation)))) :
    Except Err S := do
  let vt ← checkAndGetVariables cfg.equation_groups
  let pa_names := joinSep (lit ", ") (cfg.particle_arrays.map (fun pa => pa.name))
  let src := ((SourceCode.empty.add (bodyHeader pa_names)).indent).indent
  let arrDecl ← getArrayDeclarations cfg.equation_groups
  let src := (src.add arrDecl).add (getVariableDeclarations vt.1 vt.2)
  let src ← (groups.enum).foldlM
    (fun src gp => do
      let src := src.add (lit "# Group " ++ natStr gp.1 ++ lit ".\n")
      let src ← gp.2.foldlM (emitDest cfg) src
      pure (src.add (lit "# Group " ++ natStr gp.1 ++ lit " done.")))
    src
  pure src.get

/-- Construction of `SPHEval` followed by `generate(fp)`: normalize the equation list,
build the per-group structures, and return the full document; an `.ok` value
is the text written to `fp`, an `.error` means nothing is written. -/
def generate (particle_arrays : List ParticleArray) (equations : List EqOrGroup)
    (locator : Locator) (kernel : Kernel) : Except Err S := do
  let equation_groups ← check_equations equations
  let groups ← equation_groups.mapM makeGroup
  let cfg : Config := ⟨particle_arrays, equation_groups, locator, kernel⟩
  let body ← getBody cfg groups
  pure (getHelpers cfg ++ body)

/-- Substring test (`pat` occurs somewhere in `s`). -/
def containsSub : S → S → Bool
  | [], pat => pat.isEmpty
  | c :: t, pat => pat.isPrefixOf (c :: t) || containsSub t pat

/-- The concrete `CubicSpline` kernel of cgsph.py. -/
def cubicSpline : Kernel :=
  { name := lit "CubicSpline",
    code := { helper := some (lit "double cdef CubicSplineKernel(double x, double y, double h):\n    return 1.0\n") } }

def allPairHelperText : S :=
  lit "cdef class AllPairLocator:\n    cdef long N\n    cdef LongArray nbrs\n    def __init__(self, s_x, s_h, d_x, d_h):\n        self.N = len(s_x)\n        self.nbrs = LongArray(self.N)\n        cdef long i\n        for i in range(self.N):\n            self.nbrs[i] = i\n\n    def get_neighbors(long d_idx, LongArray nbr_array):\n        nbr_array.resize(self.N)\n        nbr_array.copy_values(self.nbrs)\n"

/-- The concrete `AllPairLocator` of cgsph.py. -/
def allPairLocator : Locator :=
  { name := lit "AllPairLocator",
    code := { helper := some allPairHelperText,
              setup := some (lit "locator = AllPairLocator(s_x, s_h, d_x, d_h)\n") } }

/-- The concrete `SummationDensity` equation of cgsph.py. -/
def summationDensity : Equation :=
  { name := lit "SummationDensity", dest := lit "fluid", sources := some [lit "fluid"],
    code :=
      { variables_ := some [{ type := lit "double", name := lit "rho_sum",
                              default := some (lit "0.0") }],
        temporaries := some [{ type := lit "double", name := lit "hab",
                               default := some (lit "0.0") }],
        arrays := some [lit "s_h", lit "s_m", lit "s_x", lit "d_h", lit "d_x", lit "d_rho"],
        loop := some (lit "hab = 0.5*(s_h[s_idx] + d_h[d_idx])\nrho_sum += s_m[s_idx]*KERNEL(d_x[d_idx], s_x[s_idx], hab)\n"),
        post := some (lit "d_rho[d_idx] = rho_sum\n") } }

/-- Concatenation of the images of `f`, used to flatten per-equation data. -/
def flatProj {α β : Type} (f : α → List β) : List α → List β
  | [] => []
  | x :: xs => f x ++ flatProj f xs

/-- All variables declared by the equations, in order. -/
def varsOf (eqs : List Equation) : List Variable :=
  flatProj (fun e => e.code.variables_.getD []) eqs

/-- All temporaries declared by the equations, in order. -/
def tempsOf (eqs : List Equation) : List Variable :=
  flatProj (fun e => e.code.temporaries.getD []) eqs

/-- Pairs `(variable name, equation kind)`, one for every variable declaration. -/
def varPairs (eqs : List Equation) : List (S × S) :=
  flatProj (fun e => (e.code.variables_.getD []).map (fun x => (x.name, e.name))) eqs

/-- Pairs `(temporary name, equation kind)`, one for every temporary declaration. -/
def tmpPairs (eqs : List Equation) : List (S × S) :=
  flatProj (fun e => (e.code.temporaries.getD []).map (fun x => (x.name, e.name))) eqs

/-- Pairs `(temporary name, declaration text)`, one for every temporary declaration. -/
def tmpDeclPairs (eqs : List Equation) : List (S × S) :=
  flatProj (fun e => (e.code.temporaries.getD []).map (fun x => (x.name, x.declare))) eqs

/-- Pairs `(source name, equation)`, one for every entry of every source list. -/
def srcPairs (eqs : List Equation) : List (S × Equation) :=
  flatProj (fun e => (e.sources.getD []).map (fun s => (s, e))) eqs

/-- The kinds of the equations declaring variable `n`, one entry per
declaration, in order. -/
def varKindsFor (n : S) (eqs : List Equation) : List S := assocVals n (varPairs eqs)

/-- The kinds of the equations declaring temporary `n`, one entry per
declaration, in order. -/
def tmpKindsFor (n : S) (eqs : List Equation) : List S := assocVals n (tmpPairs eqs)

theorem mem_flatProj {α β : Type} (f : α → List β) (l : List α) (y : β) :
    y ∈ flatProj f l ↔ ∃ x ∈ l, y ∈ f x := by
  induction l with
  | nil => simp [flatProj]
  | cons x xs ih => simp [flatProj, ih]

theorem alookup_updateAppend_self {β : Type} (l : List (S × List β)) (k : S) (b : β) :
    alookup k (updateAppend l k b) = some (lookupList k l ++ [b]) := by
  induction l with
  | nil => simp [updateAppend, alookup, lookupList]
  | cons p t ih =>
    obtain ⟨k', v⟩ := p
    by_cases h : k' = k
    · subst h; simp [updateAppend, alookup, lookupList]
    · simp [updateAppend, alookup, lookupList, h, ih]

theorem alookup_updateAppend_ne {β : Type} (l : List (S × List β)) (k k' : S) (b : β)
    (h : k' ≠ k) : alookup k' (updateAppend l k b) = alookup k' l := by
  have hne : ¬ k = k' := fun hh => h hh.symm
  induction l with
  | nil => simp [updateAppend, alookup, hne]
  | cons p t ih =>
    obtain ⟨k'', v⟩ := p
    by_cases h2 : k'' = k
    · subst h2
      simp only [updateAppend, if_pos rfl, alookup]
      rw [if_neg hne, if_neg hne]
    · simp only [updateAppend, if_neg h2, alookup]
      by_cases h3 : k'' = k'
      · rw [if_pos h3, if_pos h3]
      · rw [if_neg h3, if_neg h3, ih]

theorem lookupList_pairsFoldl {β : Type} (k : S) (ps : List (S × β)) :
    ∀ A : List (S × List β),
      lookupList k (ps.foldl (fun a p => updateAppend a p.1 p.2) A) =
        lookupList k A ++ assocVals k ps := by
  induction ps with
  | nil => intro A; simp [assocVals]
  | cons p ps ih =>
    intro A
    obtain ⟨k0, b0⟩ := p
    simp only [List.foldl_cons]
    rw [ih]
    by_cases h : k0 = k
    · subst h
      rw [show lookupList k0 (updateAppend A k0 b0) = lookupList k0 A ++ [b0] from by
            unfold lookupList; rw [alookup_updateAppend_self]; simp [lookupList]]
      simp [assocVals, List.filter_cons, List.append_assoc]
    · rw [show lookupList k (updateAppend A k0 b0) = lookupList k A from by
            unfold lookupList; rw [alookup_updateAppend_ne A k0 k b0 (fun hh => h hh.symm)]]
      simp [assocVals, List.filter_cons, h]

theorem lookupList_buildMulti {β : Type} (k : S) (ps : List (S × β)) :
    lookupList k (buildMulti ps) = assocVals k ps := by
  unfold buildMulti
  rw [lookupList_pairsFoldl]
  simp [lookupList, alookup]

theorem mem_keysOf_updateAppend {β : Type} (l : List (S × List β)) (k x : S) (b : β)
    (h : x ∈ keysOf (updateAppend l k b)) : x ∈ keysOf l ∨ x = k := by
  induction l with
  | nil =>
    right
    simpa [updateAppend, keysOf] using h
  | cons p t ih =>
    obtain ⟨k', v⟩ := p
    by_cases h2 : k' = k
    · left
      subst h2
      simpa [updateAppend, keysOf] using h
    · have h' : x = k' ∨ x ∈ keysOf (updateAppend t k b) := by
        simpa [updateAppend, h2, keysOf] using h
      rcases h' with h' | h'
      · exact Or.inl (by simp [keysOf, h'])
      · rcases ih h' with h3 | h3
        · refine Or.inl ?_
          simp only [keysOf, List.map_cons, List.mem_cons]
          exact Or.inr h3
        · exact Or.inr h3

theorem nodupKeys_updateAppend {β : Type} (l : List (S × List β)) (k : S) (b : β)
    (h : (keysOf l).Nodup) : (keysOf (updateAppend l k b)).Nodup := by
  induction l with
  | nil => simp [updateAppend, keysOf]
  | cons p t ih =>
    obtain ⟨k', v⟩ := p
    simp only [keysOf, List.map_cons, List.nodup_cons] at h
    by_cases h2 : k' = k
    · subst h2
      rw [show updateAppend ((k', v) :: t) k' b = (k', v ++ [b]) :: t from by
            simp [updateAppend]]
      simp only [keysOf, List.map_cons, List.nodup_cons]
      exact ⟨h.1, h.2⟩
    · simp only [updateAppend, if_neg h2, keysOf, List.map_cons, List.nodup_cons]
      refine ⟨fun hmem => ?_, ih h.2⟩
      rcases mem_keysOf_updateAppend t k k' b hmem with h3 | h3
      · exact h.1 h3
      · exact h2 h3

theorem nodupKeys_pairsFoldl {β : Type} (ps : List (S × β)) :
    ∀ A : List (S × List β), (keysOf A).Nodup →
      (keysOf (ps.foldl (fun a p => updateAppend a p.1 p.2) A)).Nodup := by
  induction ps with
  | nil => intro A h; exact h
  | cons p ps ih =>
    intro A h
    exact ih _ (nodupKeys_updateAppend A p.1 p.2 h)

theorem nodupKeys_buildMulti {β : Type} (ps : List (S × β)) :
    (keysOf (buildMulti ps)).Nodup := by
  unfold buildMulti
  exact nodupKeys_pairsFoldl ps [] (by simp [keysOf])

theorem alookup_of_mem {β : Type} {l : List (S × β)} {k : S} {v : β}
    (hm : (k, v) ∈ l) (hnd : (keysOf l).Nodup) : alookup k l = some v := by
  induction l with
  | nil => cases hm
  | cons p t ih =>
    obtain ⟨k', v'⟩ := p
    simp only [keysOf, List.map_cons, List.nodup_cons] at hnd
    rcases List.mem_cons.mp hm with h | h
    · cases h
      simp [alookup]
    · have hk : ¬ k' = k := by
        intro hh
        subst hh
        exact hnd.1 (List.mem_map.mpr ⟨(k', v), h, rfl⟩)
      simp [alookup, hk, ih h hnd.2]

theorem mem_of_alookup {β : Type} {l : List (S × β)} {k : S} {v : β}
    (h : alookup k l = some v) : (k, v) ∈ l := by
  induction l with
  | nil => simp [alookup] at h
  | cons p t ih =>
    obtain ⟨k', v'⟩ := p
    by_cases h2 : k' = k
    · subst h2
      simp [alookup] at h
      simp [h]
    · simp only [alookup, if_neg h2] at h
      exact List.mem_cons_of_mem _ (ih h)

theorem alookup_of_lookupList_ne {β : Type} {l : List (S × List β)} {k : S}
    (h : lookupList k l ≠ []) : alookup k l = some (lookupList k l) := by
  unfold lookupList at h ⊢
  cases hl : alookup k l with
  | none => rw [hl] at h; simp at h
  | some v => simp

theorem mem_assocVals {β : Type} {k : S} {y : β} {ps : List (S × β)} :
    y ∈ assocVals k ps ↔ (k, y) ∈ ps := by
  unfold assocVals
  rw [List.mem_map]
  constructor
  · rintro ⟨⟨a, b⟩, hp, hy⟩
    rw [List.mem_filter] at hp
    have ha : a = k := by simpa using hp.2
    subst ha
    cases hy
    exact hp.1
  · intro h
    exact ⟨(k, y), List.mem_filter.mpr ⟨h, by simp⟩, rfl⟩

theorem collect_go (eqs : List Equation) :
    ∀ acc : Collected,
      eqs.foldl collectStep acc =
        ⟨acc.vars ++ varsOf eqs,
         (varPairs eqs).foldl (fun a p => updateAppend a p.1 p.2) acc.var_names,
         acc.temps ++ tempsOf eqs,
         (tmpPairs eqs).foldl (fun a p => updateAppend a p.1 p.2) acc.tmp_names,
         (tmpDeclPairs eqs).foldl (fun a p => updateAppend a p.1 p.2) acc.tmp_declare⟩ := by
  induction eqs with
  | nil =>
    intro acc
    simp [varsOf, tempsOf, varPairs, tmpPairs, tmpDeclPairs, flatProj]
  | cons e eqs ih =>
    intro acc
    simp only [List.foldl_cons, ih]
    simp only [varsOf, tempsOf, varPairs, tmpPairs, tmpDeclPairs, flatProj, collectStep,
      List.foldl_append, List.foldl_map, List.append_assoc]

theorem collect_var_names (eqs : List Equation) :
    (collect eqs).var_names = buildMulti (varPairs eqs) := by
  unfold collect buildMulti
  rw [collect_go]

theorem collect_tmp_names (eqs : List Equation) :
    (collect eqs).tmp_names = buildMulti (tmpPairs eqs) := by
  unfold collect buildMulti
  rw [collect_go]

theorem collect_tmp_declare (eqs : List Equation) :
    (collect eqs).tmp_declare = buildMulti (tmpDeclPairs eqs) := by
  unfold collect buildMulti
  rw [collect_go]

theorem collect_vars (eqs : List Equation) : (collect eqs).vars = varsOf eqs := by
  unfold collect
  rw [collect_go]
  simp

theorem collect_temps (eqs : List Equation) : (collect eqs).temps = tempsOf eqs := by
  unfold collect
  rw [collect_go]
  simp

theorem srcMapOf_go (eqs : List Equation) :
    ∀ A : List (S × List Equation), (∀ e ∈ eqs, e.sources ≠ none) →
      eqs.foldlM srcStep A =
        Except.ok ((srcPairs eqs).foldl (fun a p => updateAppend a p.1 p.2) A) := by
  induction eqs with
  | nil =>
    intro A _
    simp [srcPairs, flatProj]
    rfl
  | cons e eqs ih =>
    intro A h
    obtain ⟨l, hl⟩ : ∃ l, e.sources = some l := by
      cases hs : e.sources with
      | none => exact absurd hs (h e (List.mem_cons_self e eqs))
      | some l => exact ⟨l, rfl⟩
    have hrest : ∀ e' ∈ eqs, e'.sources ≠ none := fun e' he' => h e' (List.mem_cons_of_mem e he')
    have hstep : srcStep A e = Except.ok (l.foldl (fun a src => updateAppend a src e) A) := by
      unfold srcStep
      rw [hl]
    rw [List.foldlM_cons, hstep]
    have hbind : (Except.ok (l.foldl (fun a src => updateAppend a src e) A) >>=
        fun init => eqs.foldlM srcStep init) =
        eqs.foldlM srcStep (l.foldl (fun a src => updateAppend a src e) A) := rfl
    rw [hbind, ih _ hrest]
    congr 1
    simp only [srcPairs, flatProj, List.foldl_append, List.foldl_map, hl, Option.getD_some]

theorem srcMapOf_ok (eqs : List Equation) (h : ∀ e ∈ eqs, e.sources ≠ none) :
    srcMapOf eqs = .ok (buildMulti (srcPairs eqs)) := by
  unfold srcMapOf buildMulti
  exact srcMapOf_go eqs [] h

theorem mapM_pair_ok {β : Type} (M : β) (ds : List S) :
    (ds.mapM (fun d =>
        (do
          let m ← (Except.ok M : Except Err β)
          pure (d, m) : Except Err (S × β)))) =
      Except.ok (ds.map (fun d => (d, M))) := by
  induction ds with
  | nil => rfl
  | cons d ds ih => rw [List.mapM_cons, ih]; rfl

theorem makeGroup_ok (g : Group) (h : ∀ e ∈ g.equations, e.sources ≠ none) :
    makeGroup g =
      .ok ((dedupFirst (g.equations.map (fun e => e.dest))).map
        (fun d => (d, buildMulti (srcPairs g.equations)))) := by
  unfold makeGroup
  have hs := srcMapOf_ok g.equations h
  simp only [hs]
  exact mapM_pair_ok _ _

theorem assocVals_mapConst (s : S) (e : Equation) (l : List S) (hnd : l.Nodup) :
    assocVals s (l.map (fun s' => (s', e))) = if s ∈ l then [e] else [] := by
  induction l with
  | nil => simp [assocVals]
  | cons x xs ih =>
    rw [List.nodup_cons] at hnd
    by_cases hx : x = s
    · subst hx
      have h1 : assocVals x (List.map (fun s' => (s', e)) xs) = [] := by
        rw [ih hnd.2, if_neg hnd.1]
      rw [show assocVals x (List.map (fun s' => (s', e)) (x :: xs)) =
            e :: assocVals x (List.map (fun s' => (s', e)) xs) from by
              simp [assocVals, List.filter_cons]]
      rw [h1, if_pos (List.mem_cons_self x xs)]
    · have hx' : ¬ s = x := fun hh => hx hh.symm
      rw [show assocVals s (List.map (fun s' => (s', e)) (x :: xs)) =
            assocVals s (List.map (fun s' => (s', e)) xs) from by
              simp [assocVals, List.filter_cons, hx]]
      rw [ih hnd.2]
      by_cases hs : s ∈ xs
      · rw [if_pos hs, if_pos (List.mem_cons_of_mem x hs)]
      · rw [if_neg hs, if_neg (by simp [List.mem_cons, hx', hs])]

theorem assocVals_srcPairs (s : S) (eqs : List Equation)
    (h : ∀ e ∈ eqs, (e.sources.getD []).Nodup) :
    assocVals s (srcPairs eqs) = eqs.filter (fun e => decide (s ∈ e.sources.getD [])) := by
  induction eqs with
  | nil => rfl
  | cons e eqs ih =>
    have hrest : ∀ e' ∈ eqs, (e'.sources.getD []).Nodup :=
      fun e' he' => h e' (List.mem_cons_of_mem e he')
    have hhead := h e (List.mem_cons_self e eqs)
    rw [show srcPairs (e :: eqs) =
          ((e.sources.getD []).map (fun s' => (s', e))) ++ srcPairs eqs from rfl]
    rw [show assocVals s (((e.sources.getD []).map (fun s' => (s', e))) ++ srcPairs eqs) =
          assocVals s ((e.sources.getD []).map (fun s' => (s', e))) ++
            assocVals s (srcPairs eqs) from by
            simp [assocVals, List.filter_append]]
    rw [assocVals_mapConst s e _ hhead, ih hrest, List.filter_cons]
    by_cases hs : s ∈ e.sources.getD []
    · rw [if_pos hs]
      simp [hs]
    · rw [if_neg hs]
      simp [hs]

theorem containsSub_nil_pat (s : S) : containsSub s [] = true := by
  cases s <;> simp [containsSub, List.isEmpty, List.isPrefixOf]

theorem containsSub_of_eq_append (s a b c : S) (h : s = a ++ b ++ c) :
    containsSub s b = true := by
  subst h
  induction a with
  | nil =>
    cases b with
    | nil => exact containsSub_nil_pat _
    | cons x xs =>
      have hp : (x :: xs).isPrefixOf ((x :: xs) ++ c) = true :=
        List.isPrefixOf_iff_prefix.mpr (List.prefix_append _ _)
      simp [containsSub, hp]
  | cons c0 rest ih =>
    rw [show (c0 :: rest) ++ b ++ c = c0 :: (rest ++ b ++ c) from by simp]
    rw [containsSub, ih, Bool.or_true]

/-- Head-extension of the first piece: `consHead c (p :: ps)` puts `c` in
front of the first piece. -/
def consHead (c : Char) : List S → List S
  | [] => [[c]]
  | p :: ps => (c :: p) :: ps

/-- Greedy left-to-right splitting of `s` at each occurrence of `tok`,
modelling Python `s.split(tok)`; `replTok` is then characterized as joining
the pieces with the replacement. -/
def splitTok (tok : S) : S → List S
  | [] => [[]]
  | c :: rest =>
    if h : tok ≠ [] ∧ tok.isPrefixOf (c :: rest) then
      [] :: splitTok tok ((c :: rest).drop tok.length)
    else
      consHead c (splitTok tok rest)
termination_by s => s.length
decreasing_by
  · simp only [List.length_drop, List.length_cons]
    have htok : 0 < tok.length := List.length_pos.mpr h.1
    omega
  · simp

theorem splitTok_ne_nil (tok s : S) : splitTok tok s ≠ [] := by
  cases s with
  | nil => simp [splitTok]
  | cons c rest =>
    rw [splitTok]
    split
    · simp
    · cases hsp : splitTok tok rest <;> simp [consHead]

theorem eq_append_drop_of_isPrefixOf (tok s : S) (h : tok.isPrefixOf s = true) :
    s = tok ++ s.drop tok.length := by
  obtain ⟨t, ht⟩ := List.isPrefixOf_iff_prefix.mp h
  rw [← ht, List.drop_left]

/-- Joining the pieces with the token itself reconstructs the text: splitting
loses nothing but the occurrences. -/
theorem splitTok_join (tok : S) : ∀ s : S, joinSep tok (splitTok tok s) = s := by
  intro s
  induction s using splitTok.induct tok with
  | case1 => simp [splitTok, joinSep]
  | case2 c rest h ih =>
    rw [splitTok, dif_pos h]
    obtain ⟨q, qs, hq⟩ := List.exists_cons_of_ne_nil
      (splitTok_ne_nil tok ((c :: rest).drop tok.length))
    rw [hq] at ih ⊢
    rw [show joinSep tok ([] :: q :: qs) = tok ++ joinSep tok (q :: qs) from by
          simp [joinSep]]
    rw [ih]
    exact (eq_append_drop_of_isPrefixOf tok _ h.2).symm
  | case3 c rest h ih =>
    rw [splitTok, dif_neg h]
    obtain ⟨q, qs, hq⟩ := List.exists_cons_of_ne_nil (splitTok_ne_nil tok rest)
    rw [hq] at ih ⊢
    rw [show consHead c (q :: qs) = (c :: q) :: qs from rfl]
    cases qs with
    | nil =>
      rw [show joinSep tok [c :: q] = c :: q from rfl]
      rw [show joinSep tok [q] = q from rfl] at ih
      rw [ih]
    | cons q2 qs2 =>
      rw [show joinSep tok ((c :: q) :: q2 :: qs2) =
            (c :: q) ++ tok ++ joinSep tok (q2 :: qs2) from rfl]
      rw [show joinSep tok (q :: q2 :: qs2) =
            q ++ tok ++ joinSep tok (q2 :: qs2) from rfl] at ih
      rw [← ih]
      simp [List.append_assoc]

/-- Model-level statement of `s.replace(tok, repl) == repl.join(s.split(tok))`:
every occurrence of the token becomes the replacement, the pieces in between
are carried over verbatim. -/
theorem replTok_eq_joinSep (tok repl : S) : ∀ s : S,
    replTok tok repl s = joinSep repl (splitTok tok s) := by
  intro s
  induction s using splitTok.induct tok with
  | case1 => simp [splitTok, replTok, joinSep]
  | case2 c rest h ih =>
    rw [splitTok, dif_pos h, replTok, dif_pos h]
    obtain ⟨q, qs, hq⟩ := List.exists_cons_of_ne_nil
      (splitTok_ne_nil tok ((c :: rest).drop tok.length))
    rw [hq] at ih ⊢
    rw [show joinSep repl ([] :: q :: qs) = repl ++ joinSep repl (q :: qs) from by
          simp [joinSep]]
    rw [ih]
  | case3 c rest h ih =>
    rw [splitTok, dif_neg h, replTok, dif_neg h]
    obtain ⟨q, qs, hq⟩ := List.exists_cons_of_ne_nil (splitTok_ne_nil tok rest)
    rw [hq] at ih ⊢
    rw [show consHead c (q :: qs) = (c :: q) :: qs from rfl]
    cases qs with
    | nil =>
      rw [show joinSep repl [c :: q] = c :: q from rfl]
      rw [show joinSep repl [q] = q from rfl] at ih
      rw [ih]
    | cons q2 qs2 =>
      rw [show joinSep repl ((c :: q) :: q2 :: qs2) =
            (c :: q) ++ repl ++ joinSep repl (q2 :: qs2) from rfl]
      rw [show joinSep repl (q :: q2 :: qs2) =
            q ++ repl ++ joinSep repl (q2 :: qs2) from rfl] at ih
      rw [ih]
      simp [List.append_assoc]

/-- The first piece of a split is a prefix of the text. -/
theorem splitTok_head_pref (tok : S) :
    ∀ s q qs, splitTok tok s = q :: qs → q <+: s := by
  intro s
  induction s using splitTok.induct tok with
  | case1 =>
    intro q qs hq
    rw [splitTok] at hq
    injection hq with h1 h2
    subst h1
    exact List.nil_prefix
  | case2 c rest h ih =>
    intro q qs hq
    rw [splitTok, dif_pos h] at hq
    injection hq with h1 h2
    subst h1
    exact List.nil_prefix
  | case3 c rest h ih =>
    intro q qs hq
    rw [splitTok, dif_neg h] at hq
    obtain ⟨p, ps, hp⟩ := List.exists_cons_of_ne_nil (splitTok_ne_nil tok rest)
    rw [hp, show consHead c (p :: ps) = (c :: p) :: ps from rfl] at hq
    injection hq with h1 h2
    subst h1
    obtain ⟨t, ht⟩ := ih p ps hp
    exact ⟨t, by rw [← ht]; rfl⟩

/-- No piece of the split contains the (non-empty) token: after joining with
the replacement, every occurrence has been replaced. -/
theorem splitTok_no_tok (tok : S) (htok : tok ≠ []) :
    ∀ s : S, ∀ p ∈ splitTok tok s, containsSub p tok = false := by
  intro s
  induction s using splitTok.induct tok with
  | case1 =>
    intro p hp
    rw [splitTok] at hp
    have hp' : p = [] := by simpa using hp
    subst hp'
    cases tok with
    | nil => exact absurd rfl htok
    | cons t ts => rfl
  | case2 c rest h ih =>
    intro p hp
    rw [splitTok, dif_pos h] at hp
    rcases List.mem_cons.mp hp with hp | hp
    · subst hp
      cases tok with
      | nil => exact absurd rfl htok
      | cons t ts => rfl
    · exact ih p hp
  | case3 c rest h ih =>
    intro p hp
    have hnotpref : tok.isPrefixOf (c :: rest) = false := by
      cases hip : tok.isPrefixOf (c :: rest) with
      | false => rfl
      | true => exact absurd ⟨htok, hip⟩ h
    rw [splitTok, dif_neg h] at hp
    obtain ⟨q, qs, hq⟩ := List.exists_cons_of_ne_nil (splitTok_ne_nil tok rest)
    rw [hq, show consHead c (q :: qs) = (c :: q) :: qs from rfl] at hp
    rcases List.mem_cons.mp hp with hp | hp
    · subst hp
      rw [containsSub]
      have h1 : containsSub q tok = false :=
        ih q (by rw [hq]; exact List.mem_cons_self q qs)
      have h2 : tok.isPrefixOf (c :: q) = false := by
        cases hip : tok.isPrefixOf (c :: q) with
        | false => rfl
        | true =>
          exfalso
          obtain ⟨t, ht⟩ := splitTok_head_pref tok rest q qs hq
          have hq2 : (c :: q) <+: (c :: rest) := ⟨t, by rw [← ht]; rfl⟩
          have htr := List.IsPrefix.trans (List.isPrefixOf_iff_prefix.mp hip) hq2
          rw [List.isPrefixOf_iff_prefix.mpr htr] at hnotpref
          simp at hnotpref
      rw [h1, h2]
      rfl
    · exact ih p (by rw [hq]; exact List.mem_cons_of_mem q hp)

theorem joinSep_split (sep : S) (ys : List S) (y : S) (hm : y ∈ ys) :
    ∃ p q, joinSep sep ys = p ++ y ++ q := by
  induction ys with
  | nil => cases hm
  | cons x xs ih =>
    cases xs with
    | nil =>
      have : y = x := by simpa using hm
      subst this
      exact ⟨[], [], by simp [joinSep]⟩
    | cons x' t =>
      rcases List.mem_cons.mp hm with h | h
      · subst h
        exact ⟨[], sep ++ joinSep sep (x' :: t), by simp [joinSep, List.append_assoc]⟩
      · obtain ⟨p, q, hs⟩ := ih h
        exact ⟨x ++ sep ++ p, q, by simp [joinSep, hs, List.append_assoc]⟩

theorem listRepr_split (ks : List S) (k : S) (h : k ∈ ks) :
    ∃ p q, listRepr ks = p ++ k ++ q := by
  have hmem : (lit "\x27" ++ k ++ lit "\x27") ∈ ks.map (fun x => lit "\x27" ++ x ++ lit "\x27") :=
    List.mem_map.mpr ⟨k, h, rfl⟩
  obtain ⟨p, q, hs⟩ := joinSep_split (lit ", ") _ _ hmem
  refine ⟨lit "[" ++ p ++ lit "\x27", lit "\x27" ++ q ++ lit "]", ?_⟩
  unfold listRepr
  rw [hs]
  simp [List.append_assoc]

/-- Value of an `ok` result, with a default for errors. -/
def okD {α : Type} (r : Except Err α) (d : α) : α :=
  match r with
  | .ok v => v
  | .error _ => d

/-- Whether a result is `ok`. -/
def isOkE {α : Type} (r : Except Err α) : Bool :=
  match r with
  | .ok _ => true
  | .error _ => false

def eqA1 : Equation := ⟨lit "EqA", lit "a", some [lit "s1"], {}⟩

def eqB1 : Equation := ⟨lit "EqB", lit "b", some [lit "s2"], {}⟩

def g12 : Group := ⟨[eqA1, eqB1]⟩

def stateEqNone : Equation := ⟨lit "StateEquation", lit "fluid", none, {}⟩

def scaleSmoothing : Equation := ⟨lit "ScaleSmoothingLength", lit "fluid", some [], {}⟩

def gMix : Group := ⟨[scaleSmoothing, eqA1]⟩

def loopOnly : Equation :=
  ⟨lit "LoopOnly", lit "fluid", some [lit "fluid"],
   { loop := some (lit "pass\n"), post := some (lit "pass\n") }⟩

/-- C5: given a flat list of Equations, `check_equations` yields exactly one
Group containing them in original order; given a nonempty list composed
entirely of Groups, it returns that list unchanged; given a list mixing a
bare Equation and a Group, it fails with the configuration `ValueError`. -/
theorem check_equations_normalizer :
    (∀ es : List Equation, check_equations (es.map EqOrGroup.e) = .ok [⟨es⟩]) ∧
    (∀ gs : List Group, gs ≠ [] → check_equations (gs.map EqOrGroup.g) = .ok gs) ∧
    (∀ (xs : List EqOrGroup) (q : Equation) (gr : Group),
      EqOrGroup.e q ∈ xs → EqOrGroup.g gr ∈ xs →
      check_equations xs =
        .error (.valueError (lit "All elements must be Groups if you use groups."))) := by
  refine ⟨?_, ?_, ?_⟩
  · intro es
    have h1 : (es.map EqOrGroup.e).filter isGroup = [] := by
      induction es with
      | nil => rfl
      | cons e es ih => simpa [isGroup, List.filter_cons] using ih
    simp only [check_equations, h1]
    have h2 : (es.map EqOrGroup.e).filterMap
        (fun x => match x with | .e q => some q | .g _ => none) = es := by
      rw [List.filterMap_map]
      exact List.filterMap_some es
    simp [h2]
  · intro gs hgs
    have h1 : (gs.map EqOrGroup.g).filter isGroup = gs.map EqOrGroup.g := by
      rw [List.filter_eq_self]
      rintro a ha
      obtain ⟨g, _, rfl⟩ := List.mem_map.mp ha
      rfl
    have h2 : (gs.map EqOrGroup.g).length ≠ 0 := by
      simpa [List.length_eq_zero] using hgs
    simp only [check_equations, h1]
    rw [if_neg (fun hh => hh.2 rfl), if_neg h2]
    have h3 : (gs.map EqOrGroup.g).filterMap
        (fun x => match x with | .g gr => some gr | .e _ => none) = gs := by
      rw [List.filterMap_map]
      exact List.filterMap_some gs
    rw [h3]
  · intro xs q gr hq hg
    have h1 : 0 < (xs.filter isGroup).length := by
      have : EqOrGroup.g gr ∈ xs.filter isGroup := List.mem_filter.mpr ⟨hg, rfl⟩
      exact List.length_pos.mpr (List.ne_nil_of_mem this)
    have h2 : (xs.filter isGroup).length ≠ xs.length := by
      have : (xs.filter isGroup).length < xs.length :=
        List.length_filter_lt_length_iff_exists.mpr ⟨.e q, hq, by simp [isGroup]⟩
      omega
    simp only [check_equations]
    rw [if_pos ⟨h1, h2⟩]

/-- Witness for C5 at a concrete mixed input. -/
theorem check_equations_normalizer_w :
    check_equations [EqOrGroup.e summationDensity, EqOrGroup.g ⟨[]⟩] =
      .error (.valueError (lit "All elements must be Groups if you use groups.")) :=
  check_equations_normalizer.2.2 _ summationDensity ⟨[]⟩ (by simp) (by simp)

/-- C1 counterexample: in `_make_group`, destination `a` receives, under
source key `s2`, the equation `EqB` whose `dest` is `b`, so per-source
equation lists are not filtered by the destination being processed. -/
theorem make_group_not_filtered_cex :
    makeGroup g12 =
      .ok [(lit "a", [(lit "s1", [eqA1]), (lit "s2", [eqB1])]),
           (lit "b", [(lit "s1", [eqA1]), (lit "s2", [eqB1])])] ∧
    ¬ (∀ p ∈ okD (makeGroup g12) [], ∀ q ∈ p.2, ∀ e ∈ q.2, e.dest = p.1) := by
  constructor
  · rfl
  · decide

/-- C1 amended: `_make_group` aggregates over the full equation set of the
group: every destination is mapped to the same source map, listing under each
source `s` all equations of the group whose source list contains `s`, in
original order, regardless of their `dest`. -/
theorem make_group_aggregates (g : Group)
    (h1 : ∀ e ∈ g.equations, e.sources ≠ none)
    (h2 : ∀ e ∈ g.equations, (e.sources.getD []).Nodup) :
    makeGroup g =
      .ok ((dedupFirst (g.equations.map (fun e => e.dest))).map
        (fun d => (d, buildMulti (srcPairs g.equations)))) ∧
    ∀ s : S, lookupList s (buildMulti (srcPairs g.equations)) =
      g.equations.filter (fun e => decide (s ∈ e.sources.getD [])) := by
  refine ⟨makeGroup_ok g h1, fun s => ?_⟩
  rw [lookupList_buildMulti, assocVals_srcPairs s _ h2]

/-- Witness for the amended C1 at a concrete two-equation group. -/
theorem make_group_aggregates_w :
    makeGroup g12 =
      .ok ((dedupFirst (g12.equations.map (fun e => e.dest))).map
        (fun d => (d, buildMulti (srcPairs g12.equations)))) ∧
    ∀ s : S, lookupList s (buildMulti (srcPairs g12.equations)) =
      g12.equations.filter (fun e => decide (s ∈ e.sources.getD [])) :=
  make_group_aggregates g12 (by decide) (by decide)

/-- C3 counterexample: an equation constructed with `sources = None` (as the
repository's own example scripts do for source-independent updates) makes
`_make_group` iterate `None` and raise a `TypeError`. -/
theorem make_group_none_sources_cex :
    makeGroup ⟨[stateEqNone]⟩ = .error (.typeError noneIterMsg) := rfl

/-- C3 amended: an equation constructed with an empty source list is handled
by `_make_group` without error and contributes through no source; the Python
value `None` for `sources`, by contrast, raises a `TypeError` (see the
counterexample). -/
theorem make_group_empty_sources (g : Group) (e : Equation)
    (hall : ∀ e' ∈ g.equations, e'.sources ≠ none)
    (he : e ∈ g.equations) (hempty : e.sources = some []) :
    makeGroup g =
      .ok ((dedupFirst (g.equations.map (fun e' => e'.dest))).map
        (fun d => (d, buildMulti (srcPairs g.equations)))) ∧
    ∀ s : S, e ∉ lookupList s (buildMulti (srcPairs g.equations)) := by
  refine ⟨makeGroup_ok g hall, fun s hmem => ?_⟩
  rw [lookupList_buildMulti] at hmem
  have h1 : (s, e) ∈ srcPairs g.equations := mem_assocVals.mp hmem
  obtain ⟨e', he', hp⟩ := (mem_flatProj _ _ _).mp h1
  obtain ⟨s0, hs0, hpe⟩ := List.mem_map.mp hp
  have he2 : e' = e := congrArg Prod.snd hpe
  subst he2
  rw [hempty] at hs0
  simp at hs0

/-- Witness for the amended C3 at a concrete group mixing an empty-source
equation with a sourced one. -/
theorem make_group_empty_sources_w :
    makeGroup gMix =
      .ok ((dedupFirst (gMix.equations.map (fun e' => e'.dest))).map
        (fun d => (d, buildMulti (srcPairs gMix.equations)))) ∧
    ∀ s : S, scaleSmoothing ∉ lookupList s (buildMulti (srcPairs gMix.equations)) :=
  make_group_empty_sources gMix scaleSmoothing (by decide) (by decide) (by decide)

/-- C2: an equation whose fragment bundle omits the `arrays` key (resp. the
`variables`/`temporaries` keys) makes `_get_array_declarations`
(resp. `_get_initialization`) iterate `None` and raise a `TypeError`, and full
generation fails on such an equation instead of treating the keys as empty. -/
theorem missing_keys_type_error :
    getArrayDeclarations [⟨[loopOnly]⟩] = .error (.typeError noneIterMsg) ∧
    getInitialization [loopOnly] = .error (.typeError noneIterMsg) ∧
    generate [] [.e loopOnly] allPairLocator cubicSpline =
      .error (.typeError noneIterMsg) := by
  refine ⟨rfl, rfl, rfl⟩

/-- C6: whenever the §3 naming invariants are violated — i.e. the
declaration checker raises — `generate` yields an error and hence writes
nothing: no partial document can be produced, because only an `ok` result is
ever written. -/
theorem generate_all_or_nothing (particle_arrays : List ParticleArray)
    (equations : List EqOrGroup) (locator : Locator) (kernel : Kernel)
    (gs : List Group) (e : Err)
    (hc : check_equations equations = .ok gs)
    (hv : checkAndGetVariables gs = .error e) :
    ∃ e', generate particle_arrays equations locator kernel = .error e' := by
  unfold generate
  rw [hc]
  cases hm : gs.mapM makeGroup with
  | error a =>
    refine ⟨a, ?_⟩
    show (Except.ok gs >>= fun equation_groups => equation_groups.mapM makeGroup >>= _) = _
    rw [show ∀ (f : List Group → Except Err S), (Except.ok gs >>= f) = f gs from fun _ => rfl]
    rw [hm]
    rfl
  | ok groups =>
    refine ⟨e, ?_⟩
    show (Except.ok gs >>= fun equation_groups => equation_groups.mapM makeGroup >>= _) = _
    rw [show ∀ (f : List Group → Except Err S), (Except.ok gs >>= f) = f gs from fun _ => rfl]
    rw [hm]
    show (Except.ok groups >>= fun groups =>
      getBody ⟨particle_arrays, gs, locator, kernel⟩ groups >>= _) = _
    rw [show ∀ (f : List (List (S × List (S × List Equation))) → Except Err S),
      (Except.ok groups >>= f) = f groups from fun _ => rfl]
    unfold getBody
    rw [hv]
    rfl

/-- Witness for C6: a duplicate variable name aborts generation with no
output. -/
theorem generate_all_or_nothing_w :
    ∃ e', generate [] [.e ⟨lit "EqA", lit "fluid", some [lit "fluid"],
        { variables_ := some [⟨lit "double", lit "rho", some (lit "0.0")⟩] }⟩,
      .e ⟨lit "EqB", lit "fluid", some [lit "fluid"],
        { variables_ := some [⟨lit "double", lit "rho", some (lit "0.0")⟩] }⟩]
      allPairLocator cubicSpline = .error e' :=
  generate_all_or_nothing [] _ allPairLocator cubicSpline _
    (.clash (varClashMsg (lit "rho") [lit "EqA", lit "EqB"]))
    rfl rfl

/-- C7: if some name is declared as a Variable at least twice across the
equation set, `_check_and_get_variables` fails with a
`VariableNameClashError` whose message contains the colliding identifier and
every declaring equation kind. -/
theorem variable_clash_error (groups : List Group) (n : S)
    (h : 2 ≤ (varKindsFor n (allEquations groups)).length) :
    ∃ nc, 2 ≤ (varKindsFor nc (allEquations groups)).length ∧
      checkAndGetVariables groups =
        .error (.clash (varClashMsg nc (varKindsFor nc (allEquations groups)))) ∧
      containsSub (varClashMsg nc (varKindsFor nc (allEquations groups))) nc = true ∧
      ∀ k ∈ varKindsFor nc (allEquations groups),
        containsSub (varClashMsg nc (varKindsFor nc (allEquations groups))) k = true := by
  have hlook : ∀ m : S, lookupList m (collect (allEquations groups)).var_names =
      varKindsFor m (allEquations groups) := by
    intro m
    rw [collect_var_names, lookupList_buildMulti]
    rfl
  have hne : lookupList n (collect (allEquations groups)).var_names ≠ [] := by
    rw [hlook]
    intro hh
    rw [hh] at h
    simp at h
  have hsome : alookup n (collect (allEquations groups)).var_names =
      some (varKindsFor n (allEquations groups)) := by
    rw [← hlook]
    exact alookup_of_lookupList_ne hne
  have hmem := mem_of_alookup hsome
  have hfind : ((collect (allEquations groups)).var_names.find?
      (fun p => decide (1 < p.2.length))).isSome := by
    rw [List.find?_isSome]
    refine ⟨(n, varKindsFor n (allEquations groups)), hmem, ?_⟩
    simp
    omega
  obtain ⟨p, hp⟩ := Option.isSome_iff_exists.mp hfind
  obtain ⟨nc, ks⟩ := p
  have hpred : 1 < ks.length := by simpa using List.find?_some hp
  have hpmem := List.mem_of_find?_eq_some hp
  have hnd : (keysOf (collect (allEquations groups)).var_names).Nodup := by
    rw [collect_var_names]
    exact nodupKeys_buildMulti _
  have hks : ks = varKindsFor nc (allEquations groups) := by
    have hnc := alookup_of_mem hpmem hnd
    have h2 := hlook nc
    unfold lookupList at h2
    rw [hnc] at h2
    simpa using h2
  refine ⟨nc, by rw [← hks]; omega, ?_, ?_, ?_⟩
  · simp only [checkAndGetVariables]
    rw [hp]
    rw [hks]
  · exact containsSub_of_eq_append _ (lit "Variable ") nc
      (lit " defined in " ++ listRepr (varKindsFor nc (allEquations groups)) ++ lit ".")
      (by simp [varClashMsg])
  · intro k hk
    obtain ⟨p, q, hpq⟩ := listRepr_split _ k hk
    refine containsSub_of_eq_append _
      (lit "Variable " ++ nc ++ lit " defined in " ++ p) k (q ++ lit ".") ?_
    simp [varClashMsg, hpq, List.append_assoc]

/-- Witness for C7 at a concrete duplicate declaration. -/
theorem variable_clash_error_w :
    ∃ nc, 2 ≤ (varKindsFor nc (allEquations [⟨[
        ⟨lit "EqA", lit "fluid", some [lit "fluid"],
          { variables_ := some [⟨lit "double", lit "rho", some (lit "0.0")⟩] }⟩,
        ⟨lit "EqB", lit "fluid", some [lit "fluid"],
          { variables_ := some [⟨lit "double", lit "rho", some (lit "0.0")⟩] }⟩]⟩])).length ∧
      checkAndGetVariables [⟨[
        ⟨lit "EqA", lit "fluid", some [lit "fluid"],
          { variables_ := some [⟨lit "double", lit "rho", some (lit "0.0")⟩] }⟩,
        ⟨lit "EqB", lit "fluid", some [lit "fluid"],
          { variables_ := some [⟨lit "double", lit "rho", some (lit "0.0")⟩] }⟩]⟩] =
        .error (.clash (varClashMsg nc (varKindsFor nc (allEquations [⟨[
          ⟨lit "EqA", lit "fluid", some [lit "fluid"],
            { variables_ := some [⟨lit "double", lit "rho", some (lit "0.0")⟩] }⟩,
          ⟨lit "EqB", lit "fluid", some [lit "fluid"],
            { variables_ := some [⟨lit "double", lit "rho", some (lit "0.0")⟩] }⟩]⟩])))) ∧
      containsSub (varClashMsg nc (varKindsFor nc (allEquations [⟨[
        ⟨lit "EqA", lit "fluid", some [lit "fluid"],
          { variables_ := some [⟨lit "double", lit "rho", some (lit "0.0")⟩] }⟩,
        ⟨lit "EqB", lit "fluid", some [lit "fluid"],
          { variables_ := some [⟨lit "double", lit "rho", some (lit "0.0")⟩] }⟩]⟩]))) nc = true ∧
      ∀ k ∈ varKindsFor nc (allEquations [⟨[
        ⟨lit "EqA", lit "fluid", some [lit "fluid"],
          { variables_ := some [⟨lit "double", lit "rho", some (lit "0.0")⟩] }⟩,
        ⟨lit "EqB", lit "fluid", some [lit "fluid"],
          { variables_ := some [⟨lit "double", lit "rho", some (lit "0.0")⟩] }⟩]⟩]),
        containsSub (varClashMsg nc (varKindsFor nc (allEquations [⟨[
          ⟨lit "EqA", lit "fluid", some [lit "fluid"],
            { variables_ := some [⟨lit "double", lit "rho", some (lit "0.0")⟩] }⟩,
          ⟨lit "EqB", lit "fluid", some [lit "fluid"],
            { variables_ := some [⟨lit "double", lit "rho", some (lit "0.0")⟩] }⟩]⟩]))) k = true :=
  variable_clash_error _ (lit "rho") (by decide)

/-- C8: a name declared both as a Temporary and as a Variable — in either
order, by any equations — always makes `_check_and_get_variables` raise a
`VariableNameClashError`. -/
theorem temp_var_collision_error (groups : List Group) (n : S)
    (hv : varKindsFor n (allEquations groups) ≠ [])
    (ht : tmpKindsFor n (allEquations groups) ≠ []) :
    ∃ m, checkAndGetVariables groups = .error (.clash m) := by
  cases hf1 : (collect (allEquations groups)).var_names.find?
      (fun p => decide (1 < p.2.length)) with
  | some p =>
    refine ⟨varClashMsg p.1 p.2, ?_⟩
    simp only [checkAndGetVariables]
    rw [hf1]
  | none =>
    have hlookT : lookupList n (collect (allEquations groups)).tmp_names =
        tmpKindsFor n (allEquations groups) := by
      rw [collect_tmp_names, lookupList_buildMulti]
      rfl
    have hsomeT : alookup n (collect (allEquations groups)).tmp_names =
        some (tmpKindsFor n (allEquations groups)) := by
      rw [← hlookT]
      exact alookup_of_lookupList_ne (by rw [hlookT]; exact ht)
    have hmemT := mem_of_alookup hsomeT
    have hlookV : lookupList n (collect (allEquations groups)).var_names =
        varKindsFor n (allEquations groups) := by
      rw [collect_var_names, lookupList_buildMulti]
      rfl
    have hsomeV : (alookup n (collect (allEquations groups)).var_names).isSome = true := by
      rw [alookup_of_lookupList_ne (by rw [hlookV]; exact hv)]
      rfl
    have hfind2 : ((collect (allEquations groups)).tmp_names.find?
        (fun p => (alookup p.1 (collect (allEquations groups)).var_names).isSome)).isSome := by
      rw [List.find?_isSome]
      exact ⟨(n, tmpKindsFor n (allEquations groups)), hmemT, hsomeV⟩
    obtain ⟨p, hp⟩ := Option.isSome_iff_exists.mp hfind2
    refine ⟨tempVarMsg p.1 p.2
      (lookupList p.1 (collect (allEquations groups)).var_names), ?_⟩
    simp only [checkAndGetVariables]
    rw [hf1, hp]

/-- Witness for C8: a Temporary declared after a clashing Variable. -/
theorem temp_var_collision_error_w :
    ∃ m, checkAndGetVariables [⟨[
        ⟨lit "EqA", lit "fluid", some [lit "fluid"],
          { temporaries := some [⟨lit "double", lit "hab", some (lit "0.0")⟩] }⟩,
        ⟨lit "EqB", lit "fluid", some [lit "fluid"],
          { variables_ := some [⟨lit "double", lit "hab", some (lit "0.0")⟩] }⟩]⟩] =
      .error (.clash m) :=
  temp_var_collision_error _ (lit "hab") (by decide) (by decide)

/-- C9: for every kernel and every equation with a per-neighbor fragment,
`_get_equation_loop` returns the fragment with first every occurrence of
`KERNEL` replaced by the derived `<KernelClass>Kernel` name, and then every
occurrence of `GRADIENT` in the resulting text replaced by the derived
`<KernelClass>Gradient` name, altering nothing else: each pass splits the
text at exactly its token occurrences into pieces that contain no further
occurrence, rejoins them with the derived name, and joining the same pieces
with the token itself reconstructs the input text verbatim.  This covers any
number of occurrences of either token, in any order, including none. -/
theorem kernel_token_subst (kernel : Kernel) (eq : Equation) (loop : S)
    (hloop : eq.code.loop = some loop) :
    getEquationLoop kernel eq =
      .ok (joinSep (kernel.name ++ lit "Gradient")
        (splitTok (lit "GRADIENT")
          (joinSep (kernel.name ++ lit "Kernel") (splitTok (lit "KERNEL") loop)))) ∧
    joinSep (lit "KERNEL") (splitTok (lit "KERNEL") loop) = loop ∧
    (∀ p ∈ splitTok (lit "KERNEL") loop, containsSub p (lit "KERNEL") = false) ∧
    joinSep (lit "GRADIENT") (splitTok (lit "GRADIENT")
        (joinSep (kernel.name ++ lit "Kernel") (splitTok (lit "KERNEL") loop))) =
      joinSep (kernel.name ++ lit "Kernel") (splitTok (lit "KERNEL") loop) ∧
    (∀ p ∈ splitTok (lit "GRADIENT")
        (joinSep (kernel.name ++ lit "Kernel") (splitTok (lit "KERNEL") loop)),
      containsSub p (lit "GRADIENT") = false) := by
  refine ⟨?_, splitTok_join _ loop, splitTok_no_tok _ (by decide) loop,
    splitTok_join _ _, splitTok_no_tok _ (by decide) _⟩
  unfold getEquationLoop
  rw [hloop]
  show Except.ok (replTok (lit "GRADIENT") (kernel.name ++ lit "Gradient")
    (replTok (lit "KERNEL") (kernel.name ++ lit "Kernel") loop)) = _
  rw [show replTok (lit "KERNEL") (kernel.name ++ lit "Kernel") loop =
        joinSep (kernel.name ++ lit "Kernel") (splitTok (lit "KERNEL") loop) from
    replTok_eq_joinSep _ _ loop]
  rw [replTok_eq_joinSep]

/-- Witness for C9: the `SummationDensity` per-neighbor fragment under the
`CubicSpline` kernel. -/
theorem kernel_token_subst_w :
    getEquationLoop cubicSpline summationDensity =
      .ok (joinSep (cubicSpline.name ++ lit "Gradient")
        (splitTok (lit "GRADIENT")
          (joinSep (cubicSpline.name ++ lit "Kernel")
            (splitTok (lit "KERNEL")
              (lit "hab = 0.5*(s_h[s_idx] + d_h[d_idx])\nrho_sum += s_m[s_idx]*KERNEL(d_x[d_idx], s_x[s_idx], hab)\n"))))) :=
  (kernel_token_subst cubicSpline summationDensity
      (lit "hab = 0.5*(s_h[s_idx] + d_h[d_idx])\nrho_sum += s_m[s_idx]*KERNEL(d_x[d_idx], s_x[s_idx], hab)\n")
      rfl).1

def fluidArray : ParticleArray :=
  ⟨lit "fluid", [lit "x", lit "y", lit "z", lit "h", lit "rho", lit "tag"]⟩

/-- C10: the empty equation list normalizes to a single empty Group, full
generation succeeds, the document holds the helper section (kernel helper,
locator helper, wrapper) and the routine skeleton, the array and variable
declaration slots are empty, and the single group body holds no destination
or source block. -/
theorem empty_generation :
    check_equations ([] : List EqOrGroup) = .ok [⟨[]⟩] ∧
    getArrayDeclarations [⟨[]⟩] = .ok [] ∧
    getVariableDeclarations [] [] = [] ∧
    isOkE (generate [fluidArray] [] allPairLocator cubicSpline) = true ∧
    containsSub (okD (generate [fluidArray] [] allPairLocator cubicSpline) [])
      (lit "# Group 0.") = true ∧
    containsSub (okD (generate [fluidArray] [] allPairLocator cubicSpline) [])
      (lit "# Group 1.") = false ∧
    containsSub (okD (generate [fluidArray] [] allPairLocator cubicSpline) [])
      (lit "# Destination") = false ∧
    containsSub (okD (generate [fluidArray] [] allPairLocator cubicSpline) [])
      (lit "# Source") = false ∧
    containsSub (okD (generate [fluidArray] [] allPairLocator cubicSpline) [])
      (lit "cdef class SPHCalc") = true ∧
    containsSub (okD (generate [fluidArray] [] allPairLocator cubicSpline) [])
      (lit "CubicSplineKernel") = true ∧
    containsSub (okD (generate [fluidArray] [] allPairLocator cubicSpline) [])
      (lit "cdef class AllPairLocator") = true ∧
    containsSub (okD (generate [fluidArray] [] allPairLocator cubicSpline) [])
      (lit "cdef class ParticleArrayWrapper") = true := by
  set_option maxRecDepth 100000 in
  set_option maxHeartbeats 2000000 in
  decide

end Pysph









